import Mathlib

/-!
Shallow embedding of the Shioaji-V3 Flask service (src/app.py) and proofs
about its three endpoints: login, fetch_all and quote.

Conventions of the embedding:
* Python dicts are association lists with in-place replacement on key reuse
  (this preserves Python's insertion-order iteration semantics).
* A Python value that may be absent (missing JSON field, missing attribute)
  is an `Option`.
* Calls into the external SDK that may raise are oracles returning `Except`.
* The float comparison `usage.bytes > 0.8 * usage.limit_bytes` is modelled
  exactly over the integers as `5 * bytes > 4 * limit`.
* `str.endswith` on Python unicode strings is a character-list suffix test.
-/

set_option maxRecDepth 10000

namespace Shioaji

/-- JSON scalar values appearing in request bodies. -/
inductive JValue where
  | str (s : String)
  | bool (b : Bool)
  | num (n : Int)
  | null
  deriving DecidableEq

/-- Python truthiness of an optional JSON value (`data.get(k)` result):
`None`, `""`, `False` and `0` are falsy. -/
def truthy : Option JValue → Bool
  | none => false
  | some (JValue.str s) => !(s == "")
  | some (JValue.bool b) => b
  | some (JValue.num n) => !(n == 0)
  | some JValue.null => false

/-- `data.get(k)` on a JSON object (first binding wins, as in a dict). -/
def jget (data : List (String × JValue)) (k : String) : Option JValue :=
  match data with
  | [] => none
  | (k2, v) :: rest => if k2 = k then some v else jget rest k

/-- The global Shioaji session handle created by `sj.Shioaji(simulation=...)`. -/
structure Session where
  id : Nat
  simulation : Bool
  deriving DecidableEq

/-- An instrument handle from a contract directory.  `code` and `category`
are `Option` because the source probes them with `hasattr`. -/
structure Contract where
  code : Option String
  category : Option String
  deriving DecidableEq

/-- A value stored in the contract cache: either an instrument handle or a
market label string (the `..._market` entries). -/
inductive CacheVal where
  | contract (c : Contract)
  | market (m : String)
  deriving DecidableEq

/-- The contract cache: a Python dict from string keys to cached values. -/
abbrev Dict := List (String × CacheVal)

/-- `d[k] = v` on a Python dict: replace in place if the key exists,
otherwise append (preserving insertion order). -/
def dictInsert (d : Dict) (k : String) (v : CacheVal) : Dict :=
  match d with
  | [] => [(k, v)]
  | (k2, v2) :: rest => if k2 = k then (k, v) :: rest else (k2, v2) :: dictInsert rest k v

/-- `d[k]` lookup (first binding). -/
def dictGet (d : Dict) (k : String) : Option CacheVal :=
  match d with
  | [] => none
  | (k2, v) :: rest => if k2 = k then some v else dictGet rest k

/-- Perform a sequence of dict writes in order. -/
def applyInserts (d : Dict) (l : List (String × CacheVal)) : Dict :=
  List.foldl (fun acc p => dictInsert acc p.1 p.2) d l

/-- `join ∘ map`: the insertions contributed by each element of a list. -/
def joinMap (f : α → List β) : List α → List β
  | [] => []
  | a :: l => f a ++ joinMap f l

/-- Cache writes performed for one stock contract in venue `market`
(app.py lines 128-137): the `stock_<code>` entry and its market label,
plus the `warrant_<code>` alias pair when `category == "Warrant"`. -/
def contractInserts (market : String) (c : Contract) : List (String × CacheVal) :=
  match c.code with
  | none => []
  | some code =>
    [("stock_" ++ code, CacheVal.contract c),
     ("stock_" ++ (code ++ "_market"), CacheVal.market market)] ++
    (if c.category = some "Warrant" then
      [("warrant_" ++ code, CacheVal.contract c),
       ("warrant_" ++ (code ++ "_market"), CacheVal.market (market ++ "_Warrant"))]
     else [])

/-- Cache writes for one futures contract (app.py lines 139-143). -/
def futuresInserts (c : Contract) : List (String × CacheVal) :=
  match c.code with
  | none => []
  | some code =>
    [("futures_" ++ code, CacheVal.contract c),
     ("futures_" ++ (code ++ "_market"), CacheVal.market "Futures")]

/-- Cache writes for one options contract (app.py lines 145-149). -/
def optionsInserts (c : Contract) : List (String × CacheVal) :=
  match c.code with
  | none => []
  | some code =>
    [("options_" ++ code, CacheVal.contract c),
     ("options_" ++ (code ++ "_market"), CacheVal.market "Options")]

/-- The contract directories exposed by the SDK.  `oes` is `none` when the
`OES` attribute is absent (`getattr(..., "OES", None)`). -/
structure Dirs where
  tse : List Contract
  otc : List Contract
  oes : Option (List Contract)
  futures : List Contract
  options : List Contract

/-- The OES contract list: empty when the attribute is absent. -/
def oesList (d : Dirs) : List Contract :=
  match d.oes with
  | none => []
  | some l => l

/-- Stock-venue cache writes in the fixed venue order TSE, OTC, OES,
skipping OES when it is absent (app.py lines 120-137). -/
def stockInserts (d : Dirs) : List (String × CacheVal) :=
  joinMap (contractInserts "TSE") d.tse ++
  joinMap (contractInserts "OTC") d.otc ++
  joinMap (contractInserts "OES") (oesList d)

/-- The full insertion sequence of cache population (app.py lines 117-150). -/
def popInserts (d : Dirs) : List (String × CacheVal) :=
  stockInserts d ++ joinMap futuresInserts d.futures ++ joinMap optionsInserts d.options

/-- Cache population: run all the writes against the current cache. -/
def populateCache (d : Dirs) (cache : Dict) : Dict :=
  applyInserts cache (popInserts d)

/-- All stock contracts in venue iteration order (TSE, OTC, OES when present). -/
def stocksFlat (d : Dirs) : List Contract :=
  d.tse ++ d.otc ++ oesList d

/-- Does this contract carry exactly this code? -/
def hasCode (code : String) (c : Contract) : Bool :=
  c.code == some code

/-- Observable side effects of a fetch_all run. -/
inductive Event where
  | contractsAccess (name : String)
  | snapshotCall (size : Nat)
  | sleep (secs : Nat)
  deriving DecidableEq

/-- Is this event a contract-directory access? -/
def Event.isAccess : Event → Bool
  | Event.contractsAccess _ => true
  | _ => false

/-- Is this event a snapshot call? -/
def Event.isSnap : Event → Bool
  | Event.snapshotCall _ => true
  | _ => false

/-- Is this event a sleep? -/
def Event.isSleep : Event → Bool
  | Event.sleep _ => true
  | _ => false

/-- Contract-directory accesses performed by cache population. -/
def popAccessEvents : List Event :=
  [Event.contractsAccess "TSE", Event.contractsAccess "OTC", Event.contractsAccess "OES",
   Event.contractsAccess "Futures", Event.contractsAccess "Options"]

/-- Did this `Except` succeed? -/
def exceptOk : Except ε α → Bool
  | Except.ok _ => true
  | Except.error _ => false

/-- A quote returned by `api.snapshots`.  `close` and `ts` are optional
because fetch_all probes them with `hasattr`. -/
structure Quote where
  code : String
  close : Option Int
  ts : Option Int
  deriving DecidableEq

/-- One record of the fetch_all response
(`{code, market, price, timestamp}`, app.py lines 171-178). -/
structure QuoteRecord where
  code : String
  market : CacheVal
  price : Option Int
  ts : Option Int
  deriving DecidableEq

/-- Python's `str.endswith` as a character-list suffix test. -/
def strEndsWith (s pat : String) : Bool :=
  List.isSuffixOf pat.data s.data

/-- The cache items whose key does not end with `"_market"`
(the filter of app.py lines 153-154). -/
def nonMarketEntries (cache : Dict) : Dict :=
  cache.filter (fun p => !(strEndsWith p.1 "_market"))

/-- `contracts = [v for k, v in cache.items() if not k.endswith("_market")]`. -/
def collectContracts (cache : Dict) : List CacheVal :=
  (nonMarketEntries cache).map Prod.snd

/-- The `markets` comprehension body: one `cache[k + "_market"]` lookup per
non-market item, raising `KeyError` on a missing sibling. -/
def collectMarketsAux (cache : Dict) : List (String × CacheVal) → Except String (List CacheVal)
  | [] => Except.ok []
  | (k, _) :: rest =>
    match dictGet cache (k ++ "_market") with
    | none => Except.error ("KeyError: " ++ (k ++ "_market"))
    | some m =>
      match collectMarketsAux cache rest with
      | Except.error e => Except.error e
      | Except.ok ms => Except.ok (m :: ms)

/-- `markets = [cache[k + "_market"] for k, v in cache.items() if not k.endswith("_market")]`. -/
def collectMarkets (cache : Dict) : Except String (List CacheVal) :=
  collectMarketsAux cache (nonMarketEntries cache)

/-- Fuel-driven chunking; fuel `≥ l.length` makes it total for chunk size `> 0`. -/
def chunksOfAux (fuel n : Nat) (l : List α) : List (List α) :=
  match fuel with
  | 0 => []
  | fuel2 + 1 =>
    if l.isEmpty then [] else l.take n :: chunksOfAux fuel2 n (l.drop n)

/-- `for i in range(0, len(l), n): batch = l[i:i+n]` — the batches in order. -/
def chunksOf (n : Nat) (l : List α) : List (List α) :=
  chunksOfAux l.length n l

/-- The batch loop of fetch_all (app.py lines 156-168): one snapshot call per
chunk; a raised call is logged and skipped (`continue`, which also skips the
sleep); a successful call appends its quotes and is followed by a 1-second
sleep.  `k` is the index of the next chunk, so the snapshot oracle can model
a stateful collaborator.  Returns the accumulated quotes and the event trace. -/
def runBatches (snap : Nat → List CacheVal → Except String (List Quote)) :
    Nat → List (List CacheVal) → List Quote × List Event
  | _, [] => ([], [])
  | k, b :: rest =>
    match snap k b with
    | Except.error _ =>
      let r := runBatches snap (k + 1) rest
      (r.1, Event.snapshotCall b.length :: r.2)
    | Except.ok bq =>
      let r := runBatches snap (k + 1) rest
      (bq ++ r.1, Event.snapshotCall b.length :: Event.sleep 1 :: r.2)

/-- The response assembly of app.py lines 171-178: pair `quotes[i]` with
`markets[i]`; an index past the end of `markets` raises `IndexError`. -/
def formatRecords : List CacheVal → List Quote → Except String (List QuoteRecord)
  | _, [] => Except.ok []
  | [], _ :: _ => Except.error "IndexError: list index out of range"
  | m :: ms, q :: qs =>
    match formatRecords ms qs with
    | Except.error e => Except.error e
    | Except.ok rs => Except.ok ({ code := q.code, market := m, price := q.close, ts := q.ts } :: rs)

/-- Environment of one fetch_all request: the global session, the resource
readings, the contract directories and the snapshot oracle. -/
structure FetchEnv where
  api : Option Session
  usageBytes : Nat
  usageLimit : Nat
  rss : Nat
  dirs : Dirs
  snap : Nat → List CacheVal → Except String (List Quote)

/-- Body of a fetch_all response. -/
inductive FetchBody where
  | err (msg : String)
  | quotes (recs : List QuoteRecord)
  deriving DecidableEq

/-- Outcome of a fetch_all request: status, body, resulting global cache and
the side-effect trace. -/
structure FetchOut where
  status : Nat
  body : FetchBody
  cache : Dict
  events : List Event
  deriving DecidableEq

/-- The cache as it stands after the population step: populated when it was
empty, untouched otherwise (app.py line 117). -/
def effectiveCache (d : Dirs) (cache : Dict) : Dict :=
  if cache.isEmpty then populateCache d cache else cache

/-- The fetch_all endpoint (app.py lines 93-186). -/
def fetchAll (env : FetchEnv) (cache : Dict) : FetchOut :=
  match env.api with
  | none => { status := 500, body := FetchBody.err "Shioaji API not initialized", cache := cache, events := [] }
  | some _ =>
    if 5 * env.usageBytes > 4 * env.usageLimit then
      { status := 429, body := FetchBody.err "Approaching traffic limit", cache := cache, events := [] }
    else if env.rss > 12 * 1024 ^ 3 then
      { status := 429, body := FetchBody.err "High memory usage", cache := cache, events := [] }
    else
      let cache1 := effectiveCache env.dirs cache
      let evs := if cache.isEmpty then popAccessEvents else []
      let contracts := collectContracts cache1
      match collectMarkets cache1 with
      | Except.error e =>
        { status := 500, body := FetchBody.err ("Error in fetch_all: " ++ e), cache := cache1, events := evs }
      | Except.ok markets =>
        let r := runBatches env.snap 0 (chunksOf 200 contracts)
        match formatRecords markets r.1 with
        | Except.error e =>
          { status := 500, body := FetchBody.err ("Error in fetch_all: " ++ e), cache := cache1, events := evs ++ r.2 }
        | Except.ok recs =>
          { status := 200, body := FetchBody.quotes recs, cache := cache1, events := evs ++ r.2 }

/-- Environment of one login request: the certificate-existence check and
the outcomes of the SDK calls made after the new session is created. -/
structure LoginEnv where
  caExists : JValue → Bool
  newSessionId : Nat
  activate : Except String Bool
  loginCall : Except String (List String)
  fetchContracts : Except String Unit

/-- Body of a login response. -/
inductive LoginBody where
  | err (msg : String)
  | ok (accounts : List String)
  deriving DecidableEq

/-- Outcome of a login request: status, body and the resulting global
session handle. -/
structure LoginOut where
  status : Nat
  body : LoginBody
  api : Option Session
  deriving DecidableEq

/-- The `missing_params` list of app.py lines 48-57, in its fixed order:
api_key, secret_key, then (when simulation_mode is falsy) ca_password and
person_id. -/
def missingParams (data : List (String × JValue)) : List String :=
  (if truthy (jget data "api_key") then [] else ["api_key"]) ++
  (if truthy (jget data "secret_key") then [] else ["secret_key"]) ++
  (if truthy (jget data "simulation_mode") then [] else
    (if truthy (jget data "ca_password") then [] else ["ca_password"]) ++
    (if truthy (jget data "person_id") then [] else ["person_id"]))

/-- The tail of the login flow after CA activation: `api.login` then
`api.fetch_contracts`, each of which may raise (app.py lines 77-88). -/
def loginTail (env : LoginEnv) : Nat × LoginBody :=
  match env.loginCall with
  | Except.error e => (500, LoginBody.err ("Error in login: " ++ e))
  | Except.ok accounts =>
    match env.fetchContracts with
    | Except.error e => (500, LoginBody.err ("Error in login: " ++ e))
    | Except.ok _ => (200, LoginBody.ok accounts)

/-- The login endpoint (app.py lines 32-91).  `data` is the parsed JSON
body (`none` when the request had no usable body); note that `if not data`
also treats the empty object `{}` as an empty body.  The global `api`
handle is replaced as soon as `sj.Shioaji(...)` runs, before activation,
login and contract fetching — so it stays replaced on their failures. -/
def login (env : LoginEnv) (api0 : Option Session)
    (data? : Option (List (String × JValue))) : LoginOut :=
  match data? with
  | none => { status := 400, body := LoginBody.err "Request body is empty", api := api0 }
  | some data =>
    if data.isEmpty then
      { status := 400, body := LoginBody.err "Request body is empty", api := api0 }
    else
      let ms := missingParams data
      if ms.isEmpty then
        let sim := truthy (jget data "simulation_mode")
        let caPath := (jget data "ca_path").getD (JValue.str "/app/Sinopac.pfx")
        if sim = false ∧ env.caExists caPath = false then
          { status := 500, body := LoginBody.err "CA file not found", api := api0 }
        else
          let s : Session := { id := env.newSessionId, simulation := sim }
          if sim = false then
            match env.activate with
            | Except.error e =>
              { status := 500, body := LoginBody.err ("Error in login: " ++ e), api := some s }
            | Except.ok false =>
              { status := 500, body := LoginBody.err "Failed to activate CA", api := some s }
            | Except.ok true =>
              let r := loginTail env
              { status := r.1, body := r.2, api := some s }
          else
            let r := loginTail env
            { status := r.1, body := r.2, api := some s }
      else
        { status := 400,
          body := LoginBody.err ("Missing parameters: " ++ String.intercalate ", " ms),
          api := api0 }

/-- Environment of one quote request: the global session, the per-venue
stock directories (`dir code = none` models a raised `KeyError`), the
futures and options directories, and the single-snapshot oracle. -/
structure QuoteEnv where
  api : Option Session
  tseDir : String → Option Contract
  otcDir : String → Option Contract
  oesDir : Option (String → Option Contract)
  futuresDir : String → Option Contract
  optionsDir : String → Option Contract
  snapQ : Contract → Except String (List Quote)

/-- Body of a quote response. -/
inductive QBody where
  | err (msg : String)
  | qok (code : String) (price : Int) (ts : Int) (market : String) (type2 : String)
  deriving DecidableEq

/-- Outcome of a quote request. -/
structure QuoteOut where
  status : Nat
  body : QBody
  deriving DecidableEq

/-- The type=stock probe loop of app.py lines 208-216: TSE, then OTC, then
OES (skipped when absent), taking the first hit; a `KeyError` continues. -/
def probeStock (dirs : List (String × Option (String → Option Contract)))
    (code : String) : Option (Contract × String) :=
  match dirs with
  | [] => none
  | (_, none) :: rest => probeStock rest code
  | (m, some dir) :: rest =>
    match dir code with
    | some c => some (c, m)
    | none => probeStock rest code

/-- The tail of the quote endpoint after a contract is resolved
(app.py lines 234-245): `api.snapshots([contract])[0]` then direct access
to `quote.code`, `quote.close` and `quote.ts` (a missing attribute raises). -/
def finishQuote (env : QuoteEnv) (c : Contract) (market type2 : String) : QuoteOut :=
  match env.snapQ c with
  | Except.error e => { status := 500, body := QBody.err ("Error in quote: " ++ e) }
  | Except.ok quotes =>
    match quotes with
    | [] => { status := 500, body := QBody.err "Error in quote: IndexError" }
    | q :: _ =>
      match q.close, q.ts with
      | some p, some t =>
        { status := 200, body := QBody.qok q.code p t market type2 }
      | _, _ => { status := 500, body := QBody.err "Error in quote: AttributeError" }

/-- The quote endpoint (app.py lines 188-248).  `codeArg` and `typeArg`
are the query parameters (`type` defaults to `"stock"`); `not code` treats
a missing or empty code as absent.  A stock lookup miss falls through to
the `contract is None` 500; a futures/options miss raises `KeyError`,
caught by the outer handler as a 500. -/
def quoteEndpoint (env : QuoteEnv) (codeArg typeArg : Option String) : QuoteOut :=
  let type2 := typeArg.getD "stock"
  match codeArg with
  | none => { status := 400, body := QBody.err "Missing parameter: code" }
  | some code =>
    if code = "" then { status := 400, body := QBody.err "Missing parameter: code" }
    else
      match env.api with
      | none => { status := 500, body := QBody.err "Shioaji API not initialized" }
      | some _ =>
        if type2 = "stock" then
          match probeStock [("TSE", some env.tseDir), ("OTC", some env.otcDir), ("OES", env.oesDir)] code with
          | none => { status := 500, body := QBody.err ("Contract not found for code=" ++ code) }
          | some (c, m) =>
            let market := if c.category = some "Warrant" then m ++ "_Warrant" else m
            finishQuote env c market type2
        else if type2 = "futures" then
          match env.futuresDir code with
          | none => { status := 500, body := QBody.err ("Error in quote: KeyError " ++ code) }
          | some c => finishQuote env c "Futures" type2
        else if type2 = "options" then
          match env.optionsDir code with
          | none => { status := 500, body := QBody.err ("Error in quote: KeyError " ++ code) }
          | some c => finishQuote env c "Options" type2
        else
          { status := 400, body := QBody.err ("Unsupported type: " ++ type2) }

/-- Is there no OES directory hit for `code` (absent directory counts)? -/
def oesMiss (env : QuoteEnv) (code : String) : Prop :=
  ∀ dir, env.oesDir = some dir → dir code = none

/-- Decidable code-level clash check used by the warrant-aliasing theorem:
the other code must not be our code suffixed with `"_market"` and vice
versa, so that contract keys and market-label keys cannot collide. -/
def noMarketClash (code : String) : Option String → Bool
  | none => true
  | some cd => !(cd == code ++ "_market") && !(code == cd ++ "_market")

/-! Concrete environments used to instantiate the theorems below. -/

/-- Directories with no instruments at all. -/
def emptyDirs : Dirs := { tse := [], otc := [], oes := none, futures := [], options := [] }

/-- A live session instance. -/
def demoSession : Session := { id := 1, simulation := true }

/-- A plain TSE stock contract with code `"a"`. -/
def demoContract : Contract := { code := some "a", category := none }

/-- A warm two-entry cache holding `demoContract` under `stock_a`. -/
def demoCache : Dict :=
  [("stock_a", CacheVal.contract demoContract),
   ("stock_a_market", CacheVal.market "TSE")]

/-- The quote every demo snapshot oracle returns. -/
def demoMk : CacheVal → Quote := fun _ => { code := "a", close := none, ts := none }

/-- Fetch environment whose snapshot oracle always succeeds. -/
def demoFetchEnv : FetchEnv :=
  { api := some demoSession, usageBytes := 0, usageLimit := 100, rss := 0,
    dirs := emptyDirs, snap := fun _ b => Except.ok (b.map demoMk) }

/-- Fetch environment whose snapshot oracle always raises. -/
def failSnapEnv : FetchEnv :=
  { api := some demoSession, usageBytes := 0, usageLimit := 100, rss := 0,
    dirs := emptyDirs, snap := fun _ _ => Except.error "boom" }

/-- Fetch environment at 81 percent of the traffic quota. -/
def quotaTrippedEnv : FetchEnv :=
  { api := some demoSession, usageBytes := 81, usageLimit := 100, rss := 0,
    dirs := emptyDirs, snap := fun _ b => Except.ok (b.map demoMk) }

/-- The C1 counterexample cache: 200 stock entries followed by one futures
entry, so that the futures instrument sits at input index 200 with
pre-computed market label `"Futures"`. -/
def c1cache : Dict :=
  (List.replicate 200
    [("stock_c", CacheVal.contract { code := some "c", category := none }),
     ("stock_c_market", CacheVal.market "TSE")]).flatten ++
  [("futures_f", CacheVal.contract { code := some "f", category := none }),
   ("futures_f_market", CacheVal.market "Futures")]

/-- The C1 counterexample oracle: the first chunk (the 200 stocks) raises;
every other chunk returns exactly one quote per instrument, in input order,
echoing the instrument code. -/
def c1env : FetchEnv :=
  { api := some demoSession, usageBytes := 0, usageLimit := 100, rss := 0,
    dirs := emptyDirs,
    snap := fun i b =>
      if i = 0 then Except.error "boom"
      else Except.ok (b.map (fun v =>
        match v with
        | CacheVal.contract c => { code := c.code.getD "", close := none, ts := none }
        | CacheVal.market _ => { code := "", close := none, ts := none })) }

/-- A login environment for the validation-only theorems. -/
def demoLoginEnv : LoginEnv :=
  { caExists := fun _ => true, newSessionId := 7,
    activate := Except.ok true, loginCall := Except.ok ["acc1"],
    fetchContracts := Except.ok () }

/-- A login environment whose `api.login` call raises, so the flow ends in
a 500 after the global session has already been replaced. -/
def failLoginEnv : LoginEnv :=
  { caExists := fun _ => true, newSessionId := 7,
    activate := Except.ok true, loginCall := Except.error "login failed",
    fetchContracts := Except.ok () }

/-- A valid simulation-mode login body. -/
def simLoginData : List (String × JValue) :=
  [("api_key", JValue.str "k"), ("secret_key", JValue.str "s"),
   ("simulation_mode", JValue.bool true)]

/-- A non-empty login body carrying none of the credential parameters. -/
def noCredsData : List (String × JValue) :=
  [("simulation_mode", JValue.bool false)]

/-- The C4 witness cache: 450 instruments (and their market labels). -/
def c4cache : Dict :=
  (List.replicate 450
    [("stock_c", CacheVal.contract { code := some "c", category := none }),
     ("stock_c_market", CacheVal.market "TSE")]).flatten

/-- The quote used by the C4 witness oracle. -/
def c4quote : Quote := { code := "q", close := none, ts := none }

/-- The C4 witness oracle: the 2nd chunk (index 1) raises, every other
chunk returns one quote per instrument. -/
def c4env : FetchEnv :=
  { api := some demoSession, usageBytes := 0, usageLimit := 100, rss := 0,
    dirs := emptyDirs,
    snap := fun i b =>
      if i = 1 then Except.error "boom" else Except.ok (b.map (fun _ => c4quote)) }

/-- The TSE warrant used by the C8 witness. -/
def warrantContract : Contract := { code := some "w1", category := some "Warrant" }

/-- Directories holding exactly one TSE warrant. -/
def warrantDirs : Dirs :=
  { tse := [warrantContract], otc := [], oes := none, futures := [], options := [] }

/-- The contract returned by the C9 witness OTC directory. -/
def otcContract : Contract := { code := some "a1", category := none }

/-- Quote environment for C9: the code misses TSE, hits OTC; OES absent. -/
def otcQuoteEnv : QuoteEnv :=
  { api := some demoSession,
    tseDir := fun _ => none,
    otcDir := fun cd => if cd = "a1" then some otcContract else none,
    oesDir := none,
    futuresDir := fun _ => none,
    optionsDir := fun _ => none,
    snapQ := fun _ => Except.ok [{ code := "a1", close := some 10, ts := some 5 }] }

/-- Quote environment for C10: every directory misses every code. -/
def missQuoteEnv : QuoteEnv :=
  { api := some demoSession,
    tseDir := fun _ => none,
    otcDir := fun _ => none,
    oesDir := none,
    futuresDir := fun _ => none,
    optionsDir := fun _ => none,
    snapQ := fun _ => Except.error "never" }

/-! Dictionary lemmas. -/

theorem dictGet_dictInsert_self (d : Dict) (k : String) (v : CacheVal) :
    dictGet (dictInsert d k v) k = some v := by
  induction d with
  | nil => simp [dictInsert, dictGet]
  | cons p rest ih =>
    by_cases h : p.1 = k
    · simp [dictInsert, h, dictGet]
    · simp [dictInsert, h, dictGet, ih]

theorem dictGet_dictInsert_ne (d : Dict) {k2 k : String} (v : CacheVal) (h : k2 ≠ k) :
    dictGet (dictInsert d k2 v) k = dictGet d k := by
  induction d with
  | nil => simp [dictInsert, dictGet, h]
  | cons p rest ih =>
    obtain ⟨k1, v1⟩ := p
    by_cases h2 : k1 = k2
    · subst h2
      simp [dictInsert, dictGet, h, Ne.symm h]
    · by_cases h3 : k1 = k
      · subst h3
        simp [dictInsert, dictGet, h2]
      · simp [dictInsert, dictGet, h2, h3, ih]

theorem applyInserts_cons (d : Dict) (p : String × CacheVal) (l : List (String × CacheVal)) :
    applyInserts d (p :: l) = applyInserts (dictInsert d p.1 p.2) l := rfl

theorem applyInserts_append (d : Dict) (l1 l2 : List (String × CacheVal)) :
    applyInserts d (l1 ++ l2) = applyInserts (applyInserts d l1) l2 := by
  simp [applyInserts, List.foldl_append]

theorem dictGet_applyInserts_of_ne (d : Dict) (l : List (String × CacheVal)) {k : String}
    (h : ∀ p ∈ l, p.1 ≠ k) : dictGet (applyInserts d l) k = dictGet d k := by
  induction l generalizing d with
  | nil => rfl
  | cons p rest ih =>
    rw [applyInserts_cons, ih _ (fun q hq => h q (List.mem_cons_of_mem _ hq)),
      dictGet_dictInsert_ne _ _ (h p (List.mem_cons_self _ _))]

theorem dictGet_applyInserts_last (d : Dict) (l1 l2 : List (String × CacheVal))
    (k : String) (v : CacheVal) (h : ∀ p ∈ l2, p.1 ≠ k) :
    dictGet (applyInserts d (l1 ++ (k, v) :: l2)) k = some v := by
  rw [applyInserts_append, applyInserts_cons, dictGet_applyInserts_of_ne _ _ h,
    dictGet_dictInsert_self]

/-! joinMap lemmas. -/

theorem joinMap_nil (f : α → List β) : joinMap f [] = [] := rfl

theorem joinMap_cons (f : α → List β) (a : α) (l : List α) :
    joinMap f (a :: l) = f a ++ joinMap f l := rfl

theorem joinMap_append (f : α → List β) (l1 l2 : List α) :
    joinMap f (l1 ++ l2) = joinMap f l1 ++ joinMap f l2 := by
  induction l1 with
  | nil => rfl
  | cons a l ih => simp [joinMap_cons, ih]

theorem mem_joinMap {f : α → List β} {b : β} {l : List α} :
    b ∈ joinMap f l ↔ ∃ a ∈ l, b ∈ f a := by
  induction l with
  | nil => simp [joinMap_nil]
  | cons a l ih => simp [joinMap_cons, ih]

/-! String lemmas: the cache keys built from distinct literal prefixes are
distinct, and appending is cancellative. -/

theorem str_data_inj {a b : String} (h : a.data = b.data) : a = b := by
  cases a with
  | mk da =>
    cases b with
    | mk db =>
      have h2 : da = db := h
      rw [h2]

theorem data_append (a b : String) : (a ++ b).data = a.data ++ b.data := rfl

theorem str_ne_of_head {a b : String} (h : a.data.head? ≠ b.data.head?) : a ≠ b :=
  fun he => h (he ▸ rfl)

theorem head_stock (x : String) : ("stock_" ++ x).data.head? = some 's' := rfl

theorem head_warrant (x : String) : ("warrant_" ++ x).data.head? = some 'w' := rfl

theorem head_futures (x : String) : ("futures_" ++ x).data.head? = some 'f' := rfl

theorem head_options (x : String) : ("options_" ++ x).data.head? = some 'o' := rfl

theorem ne_stock_warrant (x y : String) : "stock_" ++ x ≠ "warrant_" ++ y :=
  str_ne_of_head (by rw [head_stock, head_warrant]; decide)

theorem ne_stock_futures (x y : String) : "stock_" ++ x ≠ "futures_" ++ y :=
  str_ne_of_head (by rw [head_stock, head_futures]; decide)

theorem ne_stock_options (x y : String) : "stock_" ++ x ≠ "options_" ++ y :=
  str_ne_of_head (by rw [head_stock, head_options]; decide)

theorem ne_warrant_futures (x y : String) : "warrant_" ++ x ≠ "futures_" ++ y :=
  str_ne_of_head (by rw [head_warrant, head_futures]; decide)

theorem ne_warrant_options (x y : String) : "warrant_" ++ x ≠ "options_" ++ y :=
  str_ne_of_head (by rw [head_warrant, head_options]; decide)

theorem ne_warrant_stock (x y : String) : "warrant_" ++ x ≠ "stock_" ++ y :=
  fun h => ne_stock_warrant y x h.symm

theorem str_append_left_cancel {p a b : String} (h : p ++ a = p ++ b) : a = b := by
  apply str_data_inj
  have h2 := congrArg String.data h
  rw [data_append, data_append] at h2
  exact List.append_cancel_left h2

theorem str_append_right_cancel {a b s : String} (h : a ++ s = b ++ s) : a = b := by
  apply str_data_inj
  have h2 := congrArg String.data h
  rw [data_append, data_append] at h2
  exact List.append_cancel_right h2

theorem self_ne_append_market (s : String) : s ≠ s ++ "_market" := by
  intro h
  have h2 := congrArg (fun t : String => t.data.length) h
  simp only [data_append, List.length_append] at h2
  rw [show ("_market".data).length = 7 from rfl] at h2
  omega

/-! Chunking lemmas. -/

theorem chunksOfAux_congr {α : Type} {n : Nat} (hn : 0 < n) :
    ∀ (f1 : Nat) (l : List α) (f2 : Nat), l.length ≤ f1 → l.length ≤ f2 →
      chunksOfAux f1 n l = chunksOfAux f2 n l := by
  intro f1
  induction f1 with
  | zero =>
    intro l f2 h1 h2
    have hl : l = [] := List.length_eq_zero.mp (Nat.le_zero.mp h1)
    subst hl
    cases f2 <;> simp [chunksOfAux]
  | succ f ih =>
    intro l f2 h1 h2
    cases l with
    | nil => cases f2 <;> simp [chunksOfAux]
    | cons a as =>
      cases f2 with
      | zero => simp at h2
      | succ f2p =>
        simp only [chunksOfAux, List.isEmpty_cons, Bool.false_eq_true, if_false]
        congr 1
        apply ih
        · simp only [List.length_drop, List.length_cons]
          simp only [List.length_cons] at h1
          omega
        · simp only [List.length_drop, List.length_cons]
          simp only [List.length_cons] at h2
          omega

theorem chunksOf_nil {α : Type} (n : Nat) : chunksOf n ([] : List α) = [] := rfl

theorem chunksOf_cons {α : Type} {n : Nat} (hn : 0 < n) {l : List α} (hl : l ≠ []) :
    chunksOf n l = l.take n :: chunksOf n (l.drop n) := by
  unfold chunksOf
  cases l with
  | nil => exact absurd rfl hl
  | cons a as =>
    simp only [chunksOfAux, List.length_cons, List.isEmpty_cons, Bool.false_eq_true, if_false]
    congr 1
    apply chunksOfAux_congr hn
    · simp only [List.length_drop, List.length_cons]
      omega
    · exact Nat.le_refl _

theorem chunksOfAux_flatten {α : Type} {n : Nat} (hn : 0 < n) :
    ∀ (fuel : Nat) (l : List α), l.length ≤ fuel → (chunksOfAux fuel n l).flatten = l := by
  intro fuel
  induction fuel with
  | zero =>
    intro l h
    have hl : l = [] := List.length_eq_zero.mp (Nat.le_zero.mp h)
    subst hl
    rfl
  | succ f ih =>
    intro l h
    cases l with
    | nil => rfl
    | cons a as =>
      simp only [chunksOfAux, List.isEmpty_cons, Bool.false_eq_true, if_false,
        List.flatten_cons]
      have hlen : ((a :: as).drop n).length ≤ f := by
        simp only [List.length_drop, List.length_cons]
        simp only [List.length_cons] at h
        omega
      rw [ih _ hlen]
      exact List.take_append_drop n (a :: as)

theorem chunksOf_flatten {α : Type} {n : Nat} (hn : 0 < n) (l : List α) :
    (chunksOf n l).flatten = l :=
  chunksOfAux_flatten hn l.length l (Nat.le_refl _)

theorem chunksOf200_of_length450 {α : Type} {l : List α} (h : l.length = 450) :
    chunksOf 200 l = [l.take 200, (l.drop 200).take 200, l.drop 400] := by
  have h1 : l ≠ [] := by intro e; rw [e] at h; simp at h
  rw [chunksOf_cons (by norm_num) h1]
  have hd1 : (l.drop 200).length = 250 := by simp [List.length_drop, h]
  have h2 : l.drop 200 ≠ [] := by intro e; rw [e] at hd1; simp at hd1
  rw [chunksOf_cons (by norm_num) h2]
  have hd2 : ((l.drop 200).drop 200).length = 50 := by
    simp only [List.length_drop]
    omega
  have h3 : (l.drop 200).drop 200 ≠ [] := by intro e; rw [e] at hd2; simp at hd2
  rw [chunksOf_cons (by norm_num) h3]
  have h4 : ((l.drop 200).drop 200).take 200 = (l.drop 200).drop 200 :=
    List.take_of_length_le (by omega)
  have h5 : ((l.drop 200).drop 200).drop 200 = [] :=
    List.drop_eq_nil_of_le (by omega)
  rw [h4, h5, chunksOf_nil, List.drop_drop]

/-! Batch-loop lemmas. -/

theorem runBatches_fst_all_ok {snap : Nat → List CacheVal → Except String (List Quote)}
    {f : CacheVal → Quote} (hs : ∀ k b, snap k b = Except.ok (b.map f)) :
    ∀ (k : Nat) (bs : List (List CacheVal)),
      (runBatches snap k bs).1 = bs.flatten.map f := by
  intro k bs
  induction bs generalizing k with
  | nil => rfl
  | cons b rest ih =>
    simp [runBatches, hs k b, List.flatten_cons, ih (k + 1)]

theorem runBatches_no_access (snap : Nat → List CacheVal → Except String (List Quote)) :
    ∀ (k : Nat) (bs : List (List CacheVal)),
      ∀ e ∈ (runBatches snap k bs).2, e.isAccess = false := by
  intro k bs
  induction bs generalizing k with
  | nil => intro e he; simp [runBatches] at he
  | cons b rest ih =>
    intro e he
    cases hsb : snap k b with
    | error er =>
      simp only [runBatches, hsb] at he
      rcases List.mem_cons.mp he with rfl | h2
      · rfl
      · exact ih (k + 1) e h2
    | ok bq =>
      simp only [runBatches, hsb] at he
      rcases List.mem_cons.mp he with rfl | h2
      · rfl
      · rcases List.mem_cons.mp h2 with rfl | h3
        · rfl
        · exact ih (k + 1) e h3

/-! Formatting lemmas. -/

theorem formatRecords_ok : ∀ (ms : List CacheVal) (qs : List Quote),
    qs.length ≤ ms.length →
    formatRecords ms qs =
      Except.ok (List.zipWith
        (fun m q => { code := q.code, market := m, price := q.close, ts := q.ts }) ms qs) := by
  intro ms
  induction ms with
  | nil =>
    intro qs h
    cases qs with
    | nil => rfl
    | cons q qs => simp at h
  | cons m ms ih =>
    intro qs h
    cases qs with
    | nil => simp [formatRecords]
    | cons q qs =>
      simp only [formatRecords, List.zipWith_cons_cons]
      rw [ih qs (by simp only [List.length_cons] at h; omega)]

theorem zipWith_record_code : ∀ (ms : List CacheVal) (qs : List Quote),
    qs.length ≤ ms.length →
    (List.zipWith
      (fun m q => ({ code := q.code, market := m, price := q.close, ts := q.ts } : QuoteRecord))
      ms qs).map QuoteRecord.code = qs.map Quote.code := by
  intro ms
  induction ms with
  | nil =>
    intro qs h
    cases qs with
    | nil => rfl
    | cons q qs => simp at h
  | cons m ms ih =>
    intro qs h
    cases qs with
    | nil => rfl
    | cons q qs =>
      simp only [List.zipWith_cons_cons, List.map_cons]
      rw [ih qs (by simp only [List.length_cons] at h; omega)]

theorem collectMarketsAux_length {cache : Dict} :
    ∀ {l : List (String × CacheVal)} {ms : List CacheVal},
      collectMarketsAux cache l = Except.ok ms → ms.length = l.length := by
  intro l
  induction l with
  | nil =>
    intro ms h
    simp only [collectMarketsAux] at h
    cases h
    rfl
  | cons p rest ih =>
    intro ms h
    obtain ⟨k, v⟩ := p
    simp only [collectMarketsAux] at h
    cases hd : dictGet cache (k ++ "_market") with
    | none => rw [hd] at h; cases h
    | some m =>
      rw [hd] at h
      cases hr : collectMarketsAux cache rest with
      | error e => rw [hr] at h; cases h
      | ok ms2 =>
        rw [hr] at h
        cases h
        simp [ih hr]

theorem collectMarkets_length {cache : Dict} {ms : List CacheVal}
    (h : collectMarkets cache = Except.ok ms) :
    ms.length = (collectContracts cache).length := by
  unfold collectMarkets at h
  rw [collectMarketsAux_length h]
  simp [collectContracts]

/-! Key-shape lemmas: which keys each kind of cache write can produce. -/

theorem fst_mem_contractInserts {p : String × CacheVal} {m : String} {c : Contract}
    (hp : p ∈ contractInserts m c) :
    ∃ cd, c.code = some cd ∧
      (p.1 = "stock_" ++ cd ∨ p.1 = "stock_" ++ (cd ++ "_market") ∨
       p.1 = "warrant_" ++ cd ∨ p.1 = "warrant_" ++ (cd ++ "_market")) := by
  cases hc : c.code with
  | none => rw [contractInserts, hc] at hp; cases hp
  | some cd =>
    refine ⟨cd, rfl, ?_⟩
    rw [contractInserts, hc] at hp
    by_cases hcat : c.category = some "Warrant"
    · simp only [hcat, if_true, List.mem_append, List.mem_cons, List.not_mem_nil,
        or_false] at hp
      rcases hp with (h | h) | (h | h)
      · exact Or.inl (by rw [h])
      · exact Or.inr (Or.inl (by rw [h]))
      · exact Or.inr (Or.inr (Or.inl (by rw [h])))
      · exact Or.inr (Or.inr (Or.inr (by rw [h])))
    · simp only [hcat, if_false, List.append_nil, List.mem_cons, List.not_mem_nil,
        or_false] at hp
      rcases hp with h | h
      · exact Or.inl (by rw [h])
      · exact Or.inr (Or.inl (by rw [h]))

theorem fst_mem_futuresInserts {p : String × CacheVal} {c : Contract}
    (hp : p ∈ futuresInserts c) :
    ∃ cd, c.code = some cd ∧
      (p.1 = "futures_" ++ cd ∨ p.1 = "futures_" ++ (cd ++ "_market")) := by
  cases hc : c.code with
  | none => rw [futuresInserts, hc] at hp; cases hp
  | some cd =>
    refine ⟨cd, rfl, ?_⟩
    rw [futuresInserts, hc] at hp
    simp only [List.mem_cons, List.not_mem_nil, or_false] at hp
    rcases hp with h | h
    · exact Or.inl (by rw [h])
    · exact Or.inr (by rw [h])

theorem fst_mem_optionsInserts {p : String × CacheVal} {c : Contract}
    (hp : p ∈ optionsInserts c) :
    ∃ cd, c.code = some cd ∧
      (p.1 = "options_" ++ cd ∨ p.1 = "options_" ++ (cd ++ "_market")) := by
  cases hc : c.code with
  | none => rw [optionsInserts, hc] at hp; cases hp
  | some cd =>
    refine ⟨cd, rfl, ?_⟩
    rw [optionsInserts, hc] at hp
    simp only [List.mem_cons, List.not_mem_nil, or_false] at hp
    rcases hp with h | h
    · exact Or.inl (by rw [h])
    · exact Or.inr (by rw [h])

/-- A stock or warrant key built from a clash-free code `cd ≠ code` differs
from all four keys the warrant contract with code `code` writes. -/
theorem targets_ne_stockShape {code cd : String} (hne : cd ≠ code)
    (hm1 : code ≠ cd ++ "_market") (hm2 : cd ≠ code ++ "_market") {k : String}
    (hk : k = "stock_" ++ cd ∨ k = "stock_" ++ (cd ++ "_market") ∨
          k = "warrant_" ++ cd ∨ k = "warrant_" ++ (cd ++ "_market")) :
    k ≠ "stock_" ++ code ∧ k ≠ "stock_" ++ (code ++ "_market") ∧
    k ≠ "warrant_" ++ code ∧ k ≠ "warrant_" ++ (code ++ "_market") := by
  rcases hk with h | h | h | h <;> subst h
  · exact ⟨fun he => hne (str_append_left_cancel he),
      fun he => hm2 (str_append_left_cancel he),
      ne_stock_warrant _ _, ne_stock_warrant _ _⟩
  · exact ⟨fun he => hm1 (str_append_left_cancel he).symm,
      fun he => hne (str_append_right_cancel (str_append_left_cancel he)),
      ne_stock_warrant _ _, ne_stock_warrant _ _⟩
  · exact ⟨ne_warrant_stock _ _, ne_warrant_stock _ _,
      fun he => hne (str_append_left_cancel he),
      fun he => hm2 (str_append_left_cancel he)⟩
  · exact ⟨ne_warrant_stock _ _, ne_warrant_stock _ _,
      fun he => hm1 (str_append_left_cancel he).symm,
      fun he => hne (str_append_right_cancel (str_append_left_cancel he))⟩

/-- A futures or options key differs from all four stock and warrant keys. -/
theorem targets_ne_futoptShape {code cd : String} {k : String}
    (hk : k = "futures_" ++ cd ∨ k = "futures_" ++ (cd ++ "_market") ∨
          k = "options_" ++ cd ∨ k = "options_" ++ (cd ++ "_market")) :
    k ≠ "stock_" ++ code ∧ k ≠ "stock_" ++ (code ++ "_market") ∧
    k ≠ "warrant_" ++ code ∧ k ≠ "warrant_" ++ (code ++ "_market") := by
  rcases hk with h | h | h | h <;> subst h
  · exact ⟨fun he => ne_stock_futures _ _ he.symm, fun he => ne_stock_futures _ _ he.symm,
      fun he => ne_warrant_futures _ _ he.symm, fun he => ne_warrant_futures _ _ he.symm⟩
  · exact ⟨fun he => ne_stock_futures _ _ he.symm, fun he => ne_stock_futures _ _ he.symm,
      fun he => ne_warrant_futures _ _ he.symm, fun he => ne_warrant_futures _ _ he.symm⟩
  · exact ⟨fun he => ne_stock_options _ _ he.symm, fun he => ne_stock_options _ _ he.symm,
      fun he => ne_warrant_options _ _ he.symm, fun he => ne_warrant_options _ _ he.symm⟩
  · exact ⟨fun he => ne_stock_options _ _ he.symm, fun he => ne_stock_options _ _ he.symm,
      fun he => ne_warrant_options _ _ he.symm, fun he => ne_warrant_options _ _ he.symm⟩

/-- Lookup of a key written inside a block of inserts, given that nothing
after its write in the block, nor in the following inserts, writes it again. -/
theorem dictGet_applyInserts_block (d : Dict) (P S B1 B2 : List (String × CacheVal))
    (k : String) (v : CacheVal)
    (hB2 : ∀ p ∈ B2, p.1 ≠ k) (hS : ∀ p ∈ S, p.1 ≠ k) :
    dictGet (applyInserts d (P ++ ((B1 ++ (k, v) :: B2) ++ S))) k = some v := by
  have hre : P ++ ((B1 ++ (k, v) :: B2) ++ S) = (P ++ B1) ++ (k, v) :: (B2 ++ S) := by
    simp [List.append_assoc]
  rw [hre]
  apply dictGet_applyInserts_last
  intro p hp
  rcases List.mem_append.mp hp with h | h
  · exact hB2 p h
  · exact hS p h

/-- Claim C5: on an initialized session, whenever the traffic gate
(`usage.bytes > 0.8 * usage.limit_bytes`, modelled exactly as
`5 * bytes > 4 * limit`) or the memory gate (`rss > 12 GiB`) trips, the
fetch_all response is a 429 with no further side effects: the cache is
unchanged and no contract-directory access or snapshot call happens.  The
statement quantifies over every cache, so the gates also fire on
warm-cache calls. -/
theorem fetchAll_resource_guard (env : FetchEnv) (cache : Dict) (s : Session)
    (hinit : env.api = some s)
    (hguard : 5 * env.usageBytes > 4 * env.usageLimit ∨ env.rss > 12 * 1024 ^ 3) :
    (fetchAll env cache).status = 429 ∧ (fetchAll env cache).cache = cache ∧
      (fetchAll env cache).events = [] := by
  rcases hguard with hg | hg
  · simp [fetchAll, hinit, hg]
  · by_cases hg1 : 5 * env.usageBytes > 4 * env.usageLimit
    · simp [fetchAll, hinit, hg1]
    · norm_num at hg
      simp [fetchAll, hinit, hg1, hg]

/-- Witness for C5: at 81 percent of quota with a warm cache, fetch_all
returns 429, keeps the cache and performs no side effects. -/
theorem fetchAll_resource_guard_witness :
    (5 * quotaTrippedEnv.usageBytes > 4 * quotaTrippedEnv.usageLimit) ∧
    ((fetchAll quotaTrippedEnv demoCache).status = 429 ∧
      (fetchAll quotaTrippedEnv demoCache).cache = demoCache ∧
      (fetchAll quotaTrippedEnv demoCache).events = []) :=
  ⟨by decide,
   fetchAll_resource_guard quotaTrippedEnv demoCache demoSession rfl (Or.inl (by decide))⟩

/-- Claim C6: a fetch_all call that observes a non-empty cache performs no
contract-directory access and leaves the cache exactly as it was, so
population happens at most once per process. -/
theorem fetchAll_warm_cache_no_population (env : FetchEnv) (cache : Dict) (s : Session)
    (hinit : env.api = some s) (hne : cache ≠ []) :
    (fetchAll env cache).cache = cache ∧
      ∀ e ∈ (fetchAll env cache).events, e.isAccess = false := by
  have hwarm : cache.isEmpty = false := by
    cases cache with
    | nil => exact absurd rfl hne
    | cons p rest => rfl
  have hec : effectiveCache env.dirs cache = cache := by
    simp [effectiveCache, hwarm]
  by_cases hg1 : 5 * env.usageBytes > 4 * env.usageLimit
  · constructor
    · simp [fetchAll, hinit, hg1]
    · intro e he
      simp [fetchAll, hinit, hg1] at he
  · by_cases hg2 : env.rss > 12 * 1024 ^ 3
    · norm_num at hg2
      constructor
      · simp [fetchAll, hinit, hg1, hg2]
      · intro e he
        simp [fetchAll, hinit, hg1, hg2] at he
    · norm_num at hg2
      have hg2n : ¬(12884901888 < env.rss) := Nat.not_lt.mpr hg2
      cases hm : collectMarkets cache with
      | error er =>
        constructor
        · simp [fetchAll, hinit, hg1, hg2n, hec, hne, hm]
        · intro e he
          simp [fetchAll, hinit, hg1, hg2n, hec, hne, hm] at he
      | ok ms =>
        cases hf : formatRecords ms
            (runBatches env.snap 0 (chunksOf 200 (collectContracts cache))).1 with
        | error er =>
          constructor
          · simp [fetchAll, hinit, hg1, hg2n, hec, hne, hm, hf]
          · intro e he
            simp [fetchAll, hinit, hg1, hg2n, hec, hne, hm, hf] at he
            exact runBatches_no_access env.snap 0 _ e he
        | ok recs =>
          constructor
          · simp [fetchAll, hinit, hg1, hg2n, hec, hne, hm, hf]
          · intro e he
            simp [fetchAll, hinit, hg1, hg2n, hec, hne, hm, hf] at he
            exact runBatches_no_access env.snap 0 _ e he

/-- Witness for C6: a second fetch_all over the warm two-entry cache keeps
it unchanged and performs no contract-directory access. -/
theorem fetchAll_warm_cache_no_population_witness :
    demoCache ≠ [] ∧ (fetchAll demoFetchEnv demoCache).cache = demoCache ∧
      ∀ e ∈ (fetchAll demoFetchEnv demoCache).events, e.isAccess = false :=
  ⟨by decide,
   (fetchAll_warm_cache_no_population demoFetchEnv demoCache demoSession rfl (by decide)).1,
   (fetchAll_warm_cache_no_population demoFetchEnv demoCache demoSession rfl (by decide)).2⟩

/-- Counterexample to C2 as stated: posting the JSON body `{}` hits the
`if not data` branch (an empty dict is falsy in Python), so the 400 carries
the error message "Request body is empty", not the enumerated
missing-parameter list. -/
theorem login_empty_object_counterexample :
    login demoLoginEnv none (some []) =
      { status := 400, body := LoginBody.err "Request body is empty", api := none } ∧
    LoginBody.err "Request body is empty" ≠
      LoginBody.err "Missing parameters: api_key, secret_key, ca_password, person_id" :=
  ⟨rfl, by decide⟩

/-- Claim C2 (amended): a NON-empty body with simulation_mode falsy and all
four credential parameters falsy yields a 400 whose message enumerates
exactly api_key, secret_key, ca_password, person_id, in that order; the
empty body `{}` instead yields the 400 "Request body is empty". -/
theorem login_missing_params_order (env : LoginEnv) (api0 : Option Session)
    (data : List (String × JValue)) (hne : data ≠ [])
    (h1 : truthy (jget data "api_key") = false)
    (h2 : truthy (jget data "secret_key") = false)
    (h3 : truthy (jget data "ca_password") = false)
    (h4 : truthy (jget data "person_id") = false)
    (h5 : truthy (jget data "simulation_mode") = false) :
    login env api0 (some data) =
      { status := 400,
        body := LoginBody.err "Missing parameters: api_key, secret_key, ca_password, person_id",
        api := api0 } := by
  have hwarm : data.isEmpty = false := by
    cases data with
    | nil => exact absurd rfl hne
    | cons p rest => rfl
  have hms : missingParams data = ["api_key", "secret_key", "ca_password", "person_id"] := by
    simp [missingParams, h1, h2, h3, h4, h5]
  simp only [login, hwarm, Bool.false_eq_true, if_false, hms]
  rfl

/-- Witness for C2: the non-empty body `{"simulation_mode": false}` yields
the enumerated missing-parameter 400. -/
theorem login_missing_params_order_witness :
    noCredsData ≠ [] ∧
    login demoLoginEnv none (some noCredsData) =
      { status := 400,
        body := LoginBody.err "Missing parameters: api_key, secret_key, ca_password, person_id",
        api := none } :=
  ⟨by decide,
   login_missing_params_order demoLoginEnv none noCredsData (by decide) (by decide)
     (by decide) (by decide) (by decide) (by decide)⟩

/-- Counterexample to C3 as stated: a chunk whose snapshot call raises hits
`continue`, which skips the `time.sleep(1)` — here a single failing chunk
produces one snapshot call and zero sleeps. -/
theorem fetchAll_failed_chunk_skips_sleep :
    (fetchAll failSnapEnv demoCache).events = [Event.snapshotCall 1] ∧
    (fetchAll failSnapEnv demoCache).events.countP Event.isSleep = 0 ∧
    (fetchAll failSnapEnv demoCache).events.countP Event.isSnap = 1 := by
  decide

/-- Claim C3 (amended): the batch loop performs exactly one snapshot call
per chunk, and a 1-second pause after each chunk whose snapshot call
succeeded — including the last — while chunks whose call raised are skipped
without the pause. -/
theorem runBatches_pause_after_success
    (snap : Nat → List CacheVal → Except String (List Quote))
    (k : Nat) (bs : List (List CacheVal)) :
    (runBatches snap k bs).2.countP Event.isSnap = bs.length ∧
    (runBatches snap k bs).2.countP Event.isSleep =
      (List.enumFrom k bs).countP (fun p => exceptOk (snap p.1 p.2)) := by
  induction bs generalizing k with
  | nil => exact ⟨rfl, rfl⟩
  | cons b rest ih =>
    obtain ⟨ih1, ih2⟩ := ih (k + 1)
    cases hsb : snap k b with
    | error e =>
      constructor
      · simp [runBatches, hsb, List.countP_cons, Event.isSnap, Event.isSleep, ih1]
      · simp [runBatches, hsb, List.countP_cons, Event.isSnap, Event.isSleep,
          List.enumFrom, exceptOk, ih2]
    | ok bq =>
      constructor
      · simp [runBatches, hsb, List.countP_cons, Event.isSnap, Event.isSleep, ih1]
      · simp [runBatches, hsb, List.countP_cons, Event.isSnap, Event.isSleep,
          List.enumFrom, exceptOk, ih2]

/-- Claim C7: once a login request passes validation (non-empty body, no
missing parameters, and either simulation mode or an existing CA file),
the global session handle is replaced by the newly created instance on
every downstream path — activation raising or returning false, the login
call raising, contract fetching raising, and success alike — so subsequent
requests observe a (possibly unauthenticated) initialized session. -/
theorem login_replaces_session (env : LoginEnv) (api0 : Option Session)
    (data : List (String × JValue)) (hne : data ≠ [])
    (hmiss : (missingParams data).isEmpty = true)
    (hca : truthy (jget data "simulation_mode") = true ∨
      env.caExists ((jget data "ca_path").getD (JValue.str "/app/Sinopac.pfx")) = true) :
    (login env api0 (some data)).api =
      some { id := env.newSessionId, simulation := truthy (jget data "simulation_mode") } ∧
    ((login env api0 (some data)).api).isSome = true := by
  have hwarm : data.isEmpty = false := by
    cases data with
    | nil => exact absurd rfl hne
    | cons p rest => rfl
  suffices h : (login env api0 (some data)).api =
      some { id := env.newSessionId, simulation := truthy (jget data "simulation_mode") } by
    exact ⟨h, by rw [h]; rfl⟩
  have hcond : ¬(truthy (jget data "simulation_mode") = false ∧
      env.caExists ((jget data "ca_path").getD (JValue.str "/app/Sinopac.pfx")) = false) := by
    rcases hca with hca | hca
    · intro hb
      rw [hca] at hb
      exact absurd hb.1 (by simp)
    · intro hb
      rw [hca] at hb
      exact absurd hb.2 (by simp)
  simp only [login, hwarm, Bool.false_eq_true, if_false, hmiss, if_true, hcond]
  by_cases hsim : truthy (jget data "simulation_mode") = false
  · simp only [hsim, if_true]
    cases env.activate with
    | error e => rfl
    | ok b => cases b <;> rfl
  · simp only [hsim, if_false]
    rfl

/-- Witness for C7: a valid simulation-mode body whose `api.login` call
raises — the response is a 500, yet the global session is the new one. -/
theorem login_replaces_session_witness :
    (login failLoginEnv none (some simLoginData)).status = 500 ∧
    (login failLoginEnv none (some simLoginData)).api = some { id := 7, simulation := true } :=
  ⟨by decide,
   (login_replaces_session failLoginEnv none simLoginData (by decide) (by decide)
     (Or.inl (by decide))).1⟩

/-- Claim C9: a type=stock quote request whose code misses TSE but hits OTC
resolves through the fixed probe order TSE, OTC, OES, takes the OTC hit and
answers with market "OTC" — or "OTC_Warrant" when the resolved contract has
category Warrant. -/
theorem quote_otc_fallback (env : QuoteEnv) (s : Session) (code : String) (c : Contract)
    (q : Quote) (qrest : List Quote) (p t : Int)
    (hcode : code ≠ "") (hinit : env.api = some s)
    (htse : env.tseDir code = none) (hotc : env.otcDir code = some c)
    (hsnap : env.snapQ c = Except.ok (q :: qrest))
    (hclose : q.close = some p) (hts : q.ts = some t) :
    quoteEndpoint env (some code) (some "stock") =
      { status := 200,
        body := QBody.qok q.code p t
          (if c.category = some "Warrant" then "OTC" ++ "_Warrant" else "OTC") "stock" } := by
  simp only [quoteEndpoint, Option.getD, hinit, hcode, if_false, if_true]
  simp only [probeStock, htse, hotc]
  simp [finishQuote, hsnap, hclose, hts]

/-- Witness for C9: code "a1" is absent from TSE, present in OTC, and its
quote comes back with market "OTC". -/
theorem quote_otc_fallback_witness :
    otcQuoteEnv.tseDir "a1" = none ∧
    quoteEndpoint otcQuoteEnv (some "a1") (some "stock") =
      { status := 200, body := QBody.qok "a1" 10 5 "OTC" "stock" } :=
  ⟨rfl,
   quote_otc_fallback otcQuoteEnv demoSession "a1" otcContract
     { code := "a1", close := some 10, ts := some 5 } [] 10 5
     (by decide) rfl rfl (by decide) rfl rfl rfl⟩

/-- Claim C10: with a code supplied and an initialized session, a lookup
miss yields a 500 (not a 404): for type=stock when the code is absent from
every probed venue, and for type=futures and type=options when the direct
directory lookup raises key-not-found. -/
theorem quote_lookup_miss_500 (env : QuoteEnv) (s : Session) (code : String)
    (hcode : code ≠ "") (hinit : env.api = some s) :
    ((env.tseDir code = none ∧ env.otcDir code = none ∧ oesMiss env code) →
      (quoteEndpoint env (some code) (some "stock")).status = 500) ∧
    (env.futuresDir code = none →
      (quoteEndpoint env (some code) (some "futures")).status = 500) ∧
    (env.optionsDir code = none →
      (quoteEndpoint env (some code) (some "options")).status = 500) := by
  refine ⟨?_, ?_, ?_⟩
  · rintro ⟨h1, h2, h3⟩
    simp only [quoteEndpoint, Option.getD, hinit, hcode, if_false, if_true]
    simp only [probeStock, h1, h2]
    cases hoes : env.oesDir with
    | none => simp [probeStock]
    | some dirF =>
      have h4 : dirF code = none := h3 dirF hoes
      simp [probeStock, h4]
  · intro h
    simp only [quoteEndpoint, Option.getD, hinit, hcode, if_false, if_true]
    simp [h]
  · intro h
    simp only [quoteEndpoint, Option.getD, hinit, hcode, if_false, if_true]
    simp [h]

/-- Witness for C10: code "zz" misses every directory; all three types
answer 500. -/
theorem quote_lookup_miss_500_witness :
    missQuoteEnv.futuresDir "zz" = none ∧
    (quoteEndpoint missQuoteEnv (some "zz") (some "stock")).status = 500 ∧
    (quoteEndpoint missQuoteEnv (some "zz") (some "futures")).status = 500 ∧
    (quoteEndpoint missQuoteEnv (some "zz") (some "options")).status = 500 :=
  ⟨rfl,
   (quote_lookup_miss_500 missQuoteEnv demoSession "zz" (by decide) rfl).1
     ⟨rfl, rfl, fun d hd => nomatch hd⟩,
   (quote_lookup_miss_500 missQuoteEnv demoSession "zz" (by decide) rfl).2.1 rfl,
   (quote_lookup_miss_500 missQuoteEnv demoSession "zz" (by decide) rfl).2.2 rfl⟩

/-- Zipping against a mapped list is zipping with the composed function. -/
theorem zipWith_map_right2 {α β γ δ : Type} (f : α → β → γ) (g : δ → β) :
    ∀ (l1 : List α) (l2 : List δ),
      List.zipWith f l1 (l2.map g) = List.zipWith (fun a d => f a (g d)) l1 l2 := by
  intro l1
  induction l1 with
  | nil => intro l2; rfl
  | cons a l ih =>
    intro l2
    cases l2 with
    | nil => rfl
    | cons d l2 => simp only [List.map_cons, List.zipWith_cons_cons, ih]

/-- Counterexample to C1 as stated: with 201 cached instruments (200 stocks
then one futures contract) and a raised first chunk, the sole returned
quote — produced by the futures instrument at input index 200, whose
pre-computed label is "Futures" — is paired with `markets[0]` = "TSE". -/
theorem fetchAll_skipped_chunk_mislabels :
    (fetchAll c1env c1cache).body =
      FetchBody.quotes [{ code := "f", market := CacheVal.market "TSE", price := none, ts := none }] ∧
    (match collectMarkets c1cache with
     | Except.ok ms => ms.get? 200
     | Except.error _ => none) = some (CacheVal.market "Futures") ∧
    CacheVal.market "TSE" ≠ CacheVal.market "Futures" := by
  decide

/-- Claim C1 (amended): when NO chunk raises — each snapshot call returning
exactly one quote per requested instrument in input order — every record of
the fetch_all result pairs the quote of an instrument with that same
instrument's pre-computed market label.  (A raised intermediate chunk
shifts the surviving quotes against the label list, so the alignment only
holds for the chunks before the first raised one.) -/
theorem fetchAll_labels_aligned_all_ok (env : FetchEnv) (cache : Dict) (s : Session)
    (ms : List CacheVal) (mkq : CacheVal → Quote)
    (hinit : env.api = some s)
    (hg1 : ¬5 * env.usageBytes > 4 * env.usageLimit)
    (hg2 : ¬env.rss > 12 * 1024 ^ 3)
    (hms : collectMarkets (effectiveCache env.dirs cache) = Except.ok ms)
    (hsnap : ∀ k b, env.snap k b = Except.ok (b.map mkq)) :
    (fetchAll env cache).status = 200 ∧
    (fetchAll env cache).body = FetchBody.quotes (List.zipWith
      (fun m c => { code := (mkq c).code, market := m, price := (mkq c).close, ts := (mkq c).ts })
      ms (collectContracts (effectiveCache env.dirs cache))) := by
  norm_num at hg2
  have hg2n : ¬(12884901888 < env.rss) := Nat.not_lt.mpr hg2
  have hflat : (runBatches env.snap 0
      (chunksOf 200 (collectContracts (effectiveCache env.dirs cache)))).1 =
      (collectContracts (effectiveCache env.dirs cache)).map mkq := by
    rw [runBatches_fst_all_ok hsnap, chunksOf_flatten (by norm_num)]
  have hlen : ms.length = (collectContracts (effectiveCache env.dirs cache)).length :=
    collectMarkets_length hms
  have hfr := formatRecords_ok ms ((collectContracts (effectiveCache env.dirs cache)).map mkq)
    (by simp [hlen])
  constructor
  · simp [fetchAll, hinit, hg1, hg2n, hms, hflat, hfr]
  · simp [fetchAll, hinit, hg1, hg2n, hms, hflat, hfr, zipWith_map_right2]

/-- Witness for C1 (amended): a warm one-instrument cache with an
all-success oracle yields the aligned singleton record. -/
theorem fetchAll_labels_aligned_all_ok_witness :
    collectMarkets (effectiveCache demoFetchEnv.dirs demoCache) =
      Except.ok [CacheVal.market "TSE"] ∧
    (fetchAll demoFetchEnv demoCache).status = 200 ∧
    (fetchAll demoFetchEnv demoCache).body =
      FetchBody.quotes [{ code := "a", market := CacheVal.market "TSE", price := none, ts := none }] := by
  have h := fetchAll_labels_aligned_all_ok demoFetchEnv demoCache demoSession
    [CacheVal.market "TSE"] demoMk rfl (by decide) (by decide) rfl (fun k b => rfl)
  exact ⟨rfl, h.1, h.2⟩

/-- Claim C4: with a warm cache of 450 instruments, fetch_all issues exactly
3 snapshot calls of sizes 200, 200 and 50; when the 2nd call raises, the
endpoint still answers 200, and the quotes list holds exactly the 250 quotes
of chunks 1 and 3 — the failed chunk's instruments are absent. -/
theorem fetchAll_450_chunking (env : FetchEnv) (cache : Dict) (s : Session)
    (ms : List CacheVal) (q1 q3 : List Quote) (er2 : String)
    (hinit : env.api = some s)
    (hg1 : ¬5 * env.usageBytes > 4 * env.usageLimit)
    (hg2 : ¬env.rss > 12 * 1024 ^ 3)
    (hne : cache ≠ [])
    (hlen : (collectContracts cache).length = 450)
    (hms : collectMarkets cache = Except.ok ms)
    (hq1 : env.snap 0 ((collectContracts cache).take 200) = Except.ok q1)
    (hl1 : q1.length = 200)
    (hq2 : env.snap 1 (((collectContracts cache).drop 200).take 200) = Except.error er2)
    (hq3 : env.snap 2 ((collectContracts cache).drop 400) = Except.ok q3)
    (hl3 : q3.length = 50) :
    (fetchAll env cache).events =
      [Event.snapshotCall 200, Event.sleep 1, Event.snapshotCall 200,
       Event.snapshotCall 50, Event.sleep 1] ∧
    (fetchAll env cache).status = 200 ∧
    ∃ recs, (fetchAll env cache).body = FetchBody.quotes recs ∧ recs.length = 250 ∧
      recs.map QuoteRecord.code = (q1 ++ q3).map Quote.code := by
  norm_num at hg2
  have hg2n : ¬(12884901888 < env.rss) := Nat.not_lt.mpr hg2
  have hwarm : cache.isEmpty = false := by
    cases cache with
    | nil => exact absurd rfl hne
    | cons p rest => rfl
  have hec : effectiveCache env.dirs cache = cache := by
    simp [effectiveCache, hwarm]
  have hchunks := chunksOf200_of_length450 hlen
  have hrun : runBatches env.snap 0 (chunksOf 200 (collectContracts cache)) =
      (q1 ++ (q3 ++ []),
       [Event.snapshotCall ((collectContracts cache).take 200).length, Event.sleep 1,
        Event.snapshotCall (((collectContracts cache).drop 200).take 200).length,
        Event.snapshotCall ((collectContracts cache).drop 400).length, Event.sleep 1]) := by
    rw [hchunks]
    simp [runBatches, hq1, hq2, hq3]
  have hb1 : ((collectContracts cache).take 200).length = 200 := by
    rw [List.length_take, hlen]; omega
  have hb2 : (((collectContracts cache).drop 200).take 200).length = 200 := by
    rw [List.length_take, List.length_drop, hlen]; omega
  have hb3 : ((collectContracts cache).drop 400).length = 50 := by
    rw [List.length_drop, hlen]
  have happ : q1 ++ (q3 ++ []) = q1 ++ q3 := by simp
  have hlenq : (q1 ++ q3).length = 250 := by simp [hl1, hl3]
  have hmslen : ms.length = 450 := by rw [collectMarkets_length hms, hlen]
  have hle : (q1 ++ q3).length ≤ ms.length := by rw [hlenq, hmslen]; norm_num
  have hfr := formatRecords_ok ms (q1 ++ q3) hle
  refine ⟨?_, ?_, ?_⟩
  · simp [fetchAll, hinit, hg1, hg2n, hec, hne, hms, hrun, happ, hfr, hb1, hb2, hb3]
  · simp [fetchAll, hinit, hg1, hg2n, hec, hne, hms, hrun, happ, hfr]
  · refine ⟨List.zipWith
      (fun m q => { code := q.code, market := m, price := q.close, ts := q.ts })
      ms (q1 ++ q3), ?_, ?_, ?_⟩
    · simp [fetchAll, hinit, hg1, hg2n, hec, hne, hms, hrun, happ, hfr]
    · rw [List.length_zipWith, hmslen, hlenq]; omega
    · exact zipWith_record_code ms (q1 ++ q3) hle

/-- Witness for C4: the concrete 450-instrument cache with the 2nd chunk
raising — 3 calls of sizes 200, 200, 50 and an overall 200 status. -/
theorem fetchAll_450_chunking_witness :
    (collectContracts c4cache).length = 450 ∧
    (fetchAll c4env c4cache).events =
      [Event.snapshotCall 200, Event.sleep 1, Event.snapshotCall 200,
       Event.snapshotCall 50, Event.sleep 1] ∧
    (fetchAll c4env c4cache).status = 200 := by
  have h := fetchAll_450_chunking c4env c4cache demoSession
    (List.replicate 450 (CacheVal.market "TSE"))
    (List.replicate 200 c4quote) (List.replicate 50 c4quote) "boom"
    rfl (by decide) (by decide) (by decide) (by decide) rfl rfl (by decide) rfl rfl (by decide)
  exact ⟨by decide, h.1, h.2.1⟩

/-- Claim C8: during cache population, a TSE instrument with category
"Warrant" yields two reachable cache entries — `stock_<code>` with market
label "TSE" and `warrant_<code>` with market label "TSE_Warrant" — both
mapping to the same instrument handle.  The hypotheses say the code is
unique among the stock contracts and that no stock code equals another
stock code suffixed with "_market", so no later write clobbers the keys. -/
theorem populate_warrant_aliasing (d : Dirs) (cache0 : Dict) (c : Contract) (code : String)
    (hc : c ∈ d.tse) (hcode : c.code = some code) (hcat : c.category = some "Warrant")
    (hU : (stocksFlat d).countP (hasCode code) = 1)
    (hN : ∀ c2 ∈ stocksFlat d, noMarketClash code c2.code = true) :
    dictGet (populateCache d cache0) ("stock_" ++ code) = some (CacheVal.contract c) ∧
    dictGet (populateCache d cache0) ("stock_" ++ (code ++ "_market")) =
      some (CacheVal.market "TSE") ∧
    dictGet (populateCache d cache0) ("warrant_" ++ code) = some (CacheVal.contract c) ∧
    dictGet (populateCache d cache0) ("warrant_" ++ (code ++ "_market")) =
      some (CacheVal.market "TSE_Warrant") := by
  obtain ⟨t1, t2, ht⟩ := List.append_of_mem hc
  have hNm : ∀ c2 ∈ stocksFlat d, ∀ cd2, c2.code = some cd2 →
      cd2 ≠ code ++ "_market" ∧ code ≠ cd2 ++ "_market" := by
    intro c2 hm cd2 hcd2
    have h := hN c2 hm
    rw [hcd2] at h
    simp only [noMarketClash, Bool.and_eq_true, Bool.not_eq_true',
      beq_eq_false_iff_ne, ne_eq] at h
    exact ⟨h.1, h.2⟩
  have hU2 : t1.countP (hasCode code) = 0 ∧ t2.countP (hasCode code) = 0 ∧
      d.otc.countP (hasCode code) = 0 ∧ (oesList d).countP (hasCode code) = 0 := by
    have hcc : hasCode code c = true := by simp [hasCode, hcode]
    simp only [stocksFlat, ht] at hU
    simp only [List.countP_append, List.countP_cons, hcc, if_true] at hU
    omega
  have hnz : ∀ c2, (c2 ∈ t2 ∨ c2 ∈ d.otc ∨ c2 ∈ oesList d) →
      ∀ cd2, c2.code = some cd2 → cd2 ≠ code := by
    intro c2 hm cd2 hcd2 he
    have hcc2 : hasCode code c2 = true := by simp [hasCode, hcd2, he]
    rcases hm with hm | hm | hm
    · exact absurd hcc2 (List.countP_eq_zero.mp hU2.2.1 c2 hm)
    · exact absurd hcc2 (List.countP_eq_zero.mp hU2.2.2.1 c2 hm)
    · exact absurd hcc2 (List.countP_eq_zero.mp hU2.2.2.2 c2 hm)
  have hmemflat : ∀ c2, (c2 ∈ t2 ∨ c2 ∈ d.otc ∨ c2 ∈ oesList d) → c2 ∈ stocksFlat d := by
    intro c2 hm
    simp only [stocksFlat, ht, List.mem_append, List.mem_cons]
    tauto
  have hblock : contractInserts "TSE" c =
      [("stock_" ++ code, CacheVal.contract c),
       ("stock_" ++ (code ++ "_market"), CacheVal.market "TSE"),
       ("warrant_" ++ code, CacheVal.contract c),
       ("warrant_" ++ (code ++ "_market"), CacheVal.market "TSE_Warrant")] := by
    rw [contractInserts, hcode]
    simp [hcat]
  have hpop : popInserts d =
      joinMap (contractInserts "TSE") t1 ++
      (contractInserts "TSE" c ++
       (joinMap (contractInserts "TSE") t2 ++
        (joinMap (contractInserts "OTC") d.otc ++
         (joinMap (contractInserts "OES") (oesList d) ++
          (joinMap futuresInserts d.futures ++ joinMap optionsInserts d.options))))) := by
    rw [popInserts, stockInserts, ht, joinMap_append, joinMap_cons]
    simp [List.append_assoc]
  have hsuffix : ∀ p ∈ joinMap (contractInserts "TSE") t2 ++
      (joinMap (contractInserts "OTC") d.otc ++
       (joinMap (contractInserts "OES") (oesList d) ++
        (joinMap futuresInserts d.futures ++ joinMap optionsInserts d.options))),
      p.1 ≠ "stock_" ++ code ∧ p.1 ≠ "stock_" ++ (code ++ "_market") ∧
      p.1 ≠ "warrant_" ++ code ∧ p.1 ≠ "warrant_" ++ (code ++ "_market") := by
    intro p hp
    rcases List.mem_append.mp hp with hp | hp
    · obtain ⟨c2, hc2, hpc⟩ := mem_joinMap.mp hp
      obtain ⟨cd2, hcd2, hshape⟩ := fst_mem_contractInserts hpc
      have hne := hnz c2 (Or.inl hc2) cd2 hcd2
      have hm := hNm c2 (hmemflat c2 (Or.inl hc2)) cd2 hcd2
      exact targets_ne_stockShape hne hm.2 hm.1 hshape
    · rcases List.mem_append.mp hp with hp | hp
      · obtain ⟨c2, hc2, hpc⟩ := mem_joinMap.mp hp
        obtain ⟨cd2, hcd2, hshape⟩ := fst_mem_contractInserts hpc
        have hne := hnz c2 (Or.inr (Or.inl hc2)) cd2 hcd2
        have hm := hNm c2 (hmemflat c2 (Or.inr (Or.inl hc2))) cd2 hcd2
        exact targets_ne_stockShape hne hm.2 hm.1 hshape
      · rcases List.mem_append.mp hp with hp | hp
        · obtain ⟨c2, hc2, hpc⟩ := mem_joinMap.mp hp
          obtain ⟨cd2, hcd2, hshape⟩ := fst_mem_contractInserts hpc
          have hne := hnz c2 (Or.inr (Or.inr hc2)) cd2 hcd2
          have hm := hNm c2 (hmemflat c2 (Or.inr (Or.inr hc2))) cd2 hcd2
          exact targets_ne_stockShape hne hm.2 hm.1 hshape
        · rcases List.mem_append.mp hp with hp | hp
          · obtain ⟨c2, _, hpc⟩ := mem_joinMap.mp hp
            obtain ⟨cd2, _, hshape⟩ := fst_mem_futuresInserts hpc
            rcases hshape with h | h
            · exact targets_ne_futoptShape (Or.inl h)
            · exact targets_ne_futoptShape (Or.inr (Or.inl h))
          · obtain ⟨c2, _, hpc⟩ := mem_joinMap.mp hp
            obtain ⟨cd2, _, hshape⟩ := fst_mem_optionsInserts hpc
            rcases hshape with h | h
            · exact targets_ne_futoptShape (Or.inr (Or.inr (Or.inl h)))
            · exact targets_ne_futoptShape (Or.inr (Or.inr (Or.inr h)))
  refine ⟨?_, ?_, ?_, ?_⟩
  · rw [populateCache, hpop, hblock]
    apply dictGet_applyInserts_block cache0 _ _ []
      [("stock_" ++ (code ++ "_market"), CacheVal.market "TSE"),
       ("warrant_" ++ code, CacheVal.contract c),
       ("warrant_" ++ (code ++ "_market"), CacheVal.market "TSE_Warrant")]
    · intro p hp
      simp only [List.mem_cons, List.not_mem_nil, or_false] at hp
      rcases hp with h | h | h <;> rw [h]
      · exact fun he => self_ne_append_market code (str_append_left_cancel he).symm
      · exact ne_warrant_stock _ _
      · exact ne_warrant_stock _ _
    · exact fun p hp => (hsuffix p hp).1
  · rw [populateCache, hpop, hblock]
    apply dictGet_applyInserts_block cache0 _ _
      [("stock_" ++ code, CacheVal.contract c)]
      [("warrant_" ++ code, CacheVal.contract c),
       ("warrant_" ++ (code ++ "_market"), CacheVal.market "TSE_Warrant")]
    · intro p hp
      simp only [List.mem_cons, List.not_mem_nil, or_false] at hp
      rcases hp with h | h <;> rw [h]
      · exact ne_warrant_stock _ _
      · exact ne_warrant_stock _ _
    · exact fun p hp => (hsuffix p hp).2.1
  · rw [populateCache, hpop, hblock]
    apply dictGet_applyInserts_block cache0 _ _
      [("stock_" ++ code, CacheVal.contract c),
       ("stock_" ++ (code ++ "_market"), CacheVal.market "TSE")]
      [("warrant_" ++ (code ++ "_market"), CacheVal.market "TSE_Warrant")]
    · intro p hp
      simp only [List.mem_cons, List.not_mem_nil, or_false] at hp
      rw [hp]
      exact fun he => self_ne_append_market code (str_append_left_cancel he).symm
    · exact fun p hp => (hsuffix p hp).2.2.1
  · rw [populateCache, hpop, hblock]
    apply dictGet_applyInserts_block cache0 _ _
      [("stock_" ++ code, CacheVal.contract c),
       ("stock_" ++ (code ++ "_market"), CacheVal.market "TSE"),
       ("warrant_" ++ code, CacheVal.contract c)] []
    · intro p hp
      exact absurd hp (List.not_mem_nil p)
    · exact fun p hp => (hsuffix p hp).2.2.2

/-- Witness for C8: one TSE warrant with code "w1" produces the two aliased
entries, both resolving to the same contract. -/
theorem populate_warrant_aliasing_witness :
    (stocksFlat warrantDirs).countP (hasCode "w1") = 1 ∧
    (dictGet (populateCache warrantDirs []) ("stock_" ++ "w1") =
       some (CacheVal.contract warrantContract) ∧
     dictGet (populateCache warrantDirs []) ("stock_" ++ ("w1" ++ "_market")) =
       some (CacheVal.market "TSE") ∧
     dictGet (populateCache warrantDirs []) ("warrant_" ++ "w1") =
       some (CacheVal.contract warrantContract) ∧
     dictGet (populateCache warrantDirs []) ("warrant_" ++ ("w1" ++ "_market")) =
       some (CacheVal.market "TSE_Warrant")) := by
  have h := populate_warrant_aliasing warrantDirs [] warrantContract "w1"
    (by decide) rfl rfl (by decide) (by decide)
  exact ⟨by decide, h.1, h.2.1, h.2.2.1, h.2.2.2⟩

end Shioaji
